import Mathlib

/-!
A shallow embedding of the statistics-collection core of the backend.ai
agent (`src/ai/backend/agent/stats.py`), together with theorems checking
the natural-language specification against it.

Modelling conventions:
* Python `Decimal` values that are known finite are embedded as exact
  rationals (`ℚ`); places where a `Decimal` may hold a non-finite value
  (infinity sentinels of `MovingStatistics`, capacities) use the `Dec`
  type below, which distinguishes finite, infinite and NaN values.
* Monotonic timestamps (`time.perf_counter()`) are passed explicitly as
  rational arguments to the operations that read the clock.
* Operations that can raise in Python (`KeyError`, `AssertionError`,
  `DivisionByZero`/`InvalidOperation` of `Decimal`) return `Option`:
  `none` embeds "an exception escapes".
* Python dicts are embedded as association lists with in-place update
  (`AssocList.set` below), which preserves insertion order exactly as
  CPython dicts do.
-/

/-- A Python `Decimal` value: a finite rational, one of the two infinities,
or NaN.  (Subnormality never arises under the default context for the
magnitudes handled here, so `is_normal` reduces to finite-and-nonzero.) -/
inductive Dec where
  | fin : ℚ → Dec
  | inf : Dec
  | negInf : Dec
  | nan : Dec
deriving DecidableEq, Repr

namespace Dec

/-- Strict order on non-NaN decimals, as used by Python `<` on `Decimal`
(comparison involving NaN raises in Python; those cases are unreachable in
the embedded code and arbitrarily return `false` here). -/
def lt : Dec → Dec → Bool
  | fin a, fin b => a < b
  | fin _, inf => true
  | fin _, negInf => false
  | inf, inf => false
  | inf, fin _ => false
  | inf, negInf => false
  | negInf, negInf => false
  | negInf, fin _ => true
  | negInf, inf => true
  | nan, _ => false
  | _, nan => false

/-- Python `min(a, b)`: returns `b` when `b < a`, else `a`. -/
def minD (a b : Dec) : Dec := if lt b a then b else a

/-- Python `max(a, b)`: returns `b` when `a < b`, else `a`. -/
def maxD (a b : Dec) : Dec := if lt a b then b else a

/-- `Decimal.is_normal()`: true for finite nonzero values (subnormals do
not arise under the default context at these magnitudes). -/
def is_normal : Dec → Bool
  | fin q => q ≠ 0
  | _ => false

/-- Python `d > 0` on a `Decimal` (only ever evaluated after an
`is_normal` guard in the source, so the NaN case is unreachable). -/
def posB : Dec → Bool
  | fin q => 0 < q
  | inf => true
  | negInf => false
  | nan => false

end Dec

/-- A finite `Decimal` in coefficient/exponent representation, as produced
by `quantize` and `normalize`: the numeric value is `coeff * 10 ^ exp`.
Two equal representations print as the same string. -/
structure DecRep where
  coeff : ℤ
  exp : ℤ
deriving DecidableEq, Repr

namespace DecRep

/-- The numeric value of a representation. -/
def val (d : DecRep) : ℚ := (d.coeff : ℚ) * (10 : ℚ) ^ d.exp

end DecRep

/-- Round a rational to the nearest integer, ties to even: the default
`ROUND_HALF_EVEN` of Python `Decimal.quantize`. -/
def roundHalfEven (q : ℚ) : ℤ :=
  let f := ⌊q⌋
  let r := q - (f : ℚ)
  if r < 1/2 then f
  else if 1/2 < r then f + 1
  else if f % 2 = 0 then f else f + 1

/-- `d.quantize(Decimal('0.000'))`: three fractional digits, half-even. -/
def quantize3 (q : ℚ) : DecRep := ⟨roundHalfEven (q * 1000), -3⟩

/-- `d.quantize(Decimal('0.00'))`: two fractional digits, half-even. -/
def quantize2 (q : ℚ) : DecRep := ⟨roundHalfEven (q * 100), -2⟩

/-- Strip factors of 10 from the coefficient into the exponent, at most
`fuel` times; the fuel makes the recursion structural. -/
def stripZeros : ℕ → ℤ → ℤ → DecRep
  | 0, c, e => ⟨c, e⟩
  | n + 1, c, e =>
    if c % 10 = 0 ∧ c ≠ 0 then stripZeros n (c / 10) (e + 1) else ⟨c, e⟩

/-- Whether the represented value is integral. -/
def DecRep.isIntegral (d : DecRep) : Bool :=
  0 ≤ d.exp ∨ (10 : ℤ) ^ (-d.exp).toNat ∣ d.coeff

/-- Modelled from the spec: the helper `remove_exponent` imported from
`ai.backend.agent.utils` is not part of the provided sources.  The spec
says serialized numbers carry "no superfluous trailing zeros or exponent
notation": an integral value is re-quantized to exponent 0 and a
non-integral value has its trailing zeros stripped (never past exponent 0,
so no positive exponent, hence no exponent notation, is produced). -/
def remove_exponent (d : DecRep) : DecRep :=
  if d.isIntegral then ⟨roundHalfEven d.val, 0⟩
  else stripZeros (-d.exp).toNat d.coeff d.exp

/-- Quantize to three fractional digits and strip, as every magnitude
field of the serializers does: `remove_exponent(x.quantize(q))`. -/
def fmt3 (q : ℚ) : DecRep := remove_exponent (quantize3 q)

/-- Quantize to two fractional digits and strip, as the `pct` field does. -/
def fmt2 (q : ℚ) : DecRep := remove_exponent (quantize2 q)

/-- `quantize` on a possibly non-finite `Decimal`: raises
`InvalidOperation` (here `none`) on infinities and NaN. -/
def quantizeDec3 : Dec → Option DecRep
  | .fin q => some (fmt3 q)
  | _ => none

/-- `MetricTypes` from the source. -/
inductive MetricTypes where
  | USAGE
  | RATE
  | UTILIZATION
  | ACCUMULATED
deriving DecidableEq, Repr

/-- `Measurement`: one producer-supplied sample. -/
structure Measurement where
  value : ℚ
  capacity : Option Dec
deriving Repr

/-- `MovingStatistics.__slots__`: running sum, count, min, max, and the
list of at most the two most recent `(value, timestamp)` points.  The
Python properties `min`/`max`/`sum` return the fields unchanged, so the
fields stand for both. -/
structure MovingStatistics where
  sum : ℚ
  count : ℕ
  min : Dec
  max : Dec
  last : List (ℚ × ℚ)
deriving Repr

namespace MovingStatistics

/-- `MovingStatistics.__init__(initial_value=None)`; `now` is the
`time.perf_counter()` reading (unused when seeding with `None`). -/
def init (initial_value : Option ℚ) (now : ℚ) : MovingStatistics :=
  match initial_value with
  | none => ⟨0, 0, .inf, .negInf, []⟩
  | some v => ⟨v, 1, .fin v, .fin v, [(v, now)]⟩

/-- `MovingStatistics.update(value)`; `now` is the clock reading taken
inside the call.  The retained-point list is truncated by popping its
front element whenever it exceeds two entries, exactly as the source. -/
def update (st : MovingStatistics) (value : ℚ) (now : ℚ) : MovingStatistics :=
  let last' := st.last ++ [(value, now)]
  { sum := st.sum + value
    count := st.count + 1
    min := Dec.minD st.min (.fin value)
    max := Dec.maxD st.max (.fin value)
    last := if 2 < last'.length then last'.drop 1 else last' }

/-- `avg`: `sum / count`; dividing with `count == 0` raises in Python
(`InvalidOperation`, since `sum` is then `0`), embedded as `none`. -/
def avg (st : MovingStatistics) : Option ℚ :=
  if st.count = 0 then none else some (st.sum / (st.count : ℚ))

/-- `diff`: the difference of the two retained points when exactly two
exist, else `0`. -/
def diff (st : MovingStatistics) : ℚ :=
  match st.last with
  | [p1, p2] => p2.1 - p1.1
  | _ => 0

/-- `rate`: the value delta over the time delta of the two retained
points when exactly two exist, else `0`.  A zero time delta makes the
division raise in Python (`DivisionByZero`), embedded as `none`. -/
def rate (st : MovingStatistics) : Option ℚ :=
  match st.last with
  | [p1, p2] =>
    if p2.2 - p1.2 = 0 then none else some ((p2.1 - p1.1) / (p2.2 - p1.2))
  | _ => some 0

end MovingStatistics

/-- The value of one field of a serialized dictionary: a decimal string
(represented by the printed `DecRep`) or the integer version tag. -/
inductive SerVal where
  | str : DecRep → SerVal
  | num : ℤ → SerVal
deriving DecidableEq, Repr

/-- The result of `MovingStatistics.to_serializable_dict`. -/
structure MovingStatValue where
  min : DecRep
  max : DecRep
  sum : DecRep
  avg : DecRep
  diff : DecRep
  rate : DecRep
  version : ℤ
deriving DecidableEq, Repr

/-- The dictionary view of a `MovingStatValue`, in source field order. -/
def MovingStatValue.toDict (v : MovingStatValue) : List (String × SerVal) :=
  [("min", .str v.min), ("max", .str v.max), ("sum", .str v.sum),
   ("avg", .str v.avg), ("diff", .str v.diff), ("rate", .str v.rate),
   ("version", .num v.version)]

/-- `MovingStatistics.to_serializable_dict`: quantizes each statistic to
three places and strips; raises (hence `none`) when `min`/`max` are the
non-finite sentinels of an empty accumulator, when `avg` divides by a
zero count, or when `rate` divides by a zero time delta. -/
def MovingStatistics.to_serializable_dict (st : MovingStatistics) :
    Option MovingStatValue :=
  match st.min, st.max, st.avg, st.rate with
  | .fin mn, .fin mx, some av, some rt =>
    some ⟨fmt3 mn, fmt3 mx, fmt3 st.sum, fmt3 av, fmt3 st.diff, fmt3 rt, 2⟩
  | _, _, _, _ => none

/-- The data fields of `Metric` (everything except `current_hook`, which
is split off so that the hook can take the metric itself as argument). -/
structure MetricData where
  key : String
  type : MetricTypes
  stats : MovingStatistics
  stats_filter : List String
  current : ℚ
  capacity : Option Dec
  unit_hint : Option String

/-- The `current_hook` capability: a pure function of the metric's data
fields (the hook receives the metric after the raw assignment and may
read `current`, `capacity` and the accumulated statistics). -/
def Hook := MetricData → ℚ

/-- `Metric`: data fields plus the optional current hook. -/
structure Metric where
  data : MetricData
  current_hook : Option Hook

/-- `Metric.update(measurement)`; `now` is the clock reading used by the
embedded statistics update. -/
def Metric.update (m : Metric) (value : Measurement) (now : ℚ) : Metric :=
  let cap := match value.capacity with
    | some c => some c
    | none => m.data.capacity
  let d := { m.data with
    capacity := cap
    stats := m.data.stats.update value.value now
    current := value.value }
  match m.current_hook with
  | some hook => { m with data := { d with current := hook d } }
  | none => { m with data := d }

/-- The result of `Metric.to_serializable_dict`. -/
structure MetricValue where
  current : DecRep
  capacity : Option DecRep
  pct : Option DecRep
  unit_hint : Option String
  stats : List (String × SerVal)

/-- `Metric.to_serializable_dict`: `current` and `capacity` quantized to
three places (quantizing a non-finite capacity raises, hence `none`),
`pct = current/capacity*100` to two places when the capacity is normal
and positive (else `null`), and the statistics dictionary filtered by
`stats_filter` with keys prefixed `stats.`. -/
def Metric.to_serializable_dict (m : Metric) : Option MetricValue :=
  let capSer : Option (Option DecRep) := match m.data.capacity with
    | none => some none
    | some c => match quantizeDec3 c with
      | some r => some (some r)
      | none => none
  match capSer, m.data.stats.to_serializable_dict with
  | some capRep, some statsDict =>
    some
      { current := fmt3 m.data.current
        capacity := capRep
        pct :=
          match m.data.capacity with
          | some c =>
            if c.is_normal ∧ c.posB then
              match c with
              | .fin cq => some (fmt2 (m.data.current / cq * 100))
              | _ => none
            else none
          | none => none
        unit_hint := m.data.unit_hint
        stats := (statsDict.toDict.filter
            (fun kv => m.data.stats_filter.contains kv.1)).map
            (fun kv => ("stats." ++ kv.1, kv.2)) }
  | _, _ => none

/-- In-place update of a Python dict entry, preserving insertion order:
`d[k] = v` replaces the value at `k` when present, else appends. -/
def AssocList.set {α : Type} : List (String × α) → String → α → List (String × α)
  | [], k, v => [(k, v)]
  | (k', v') :: rest, k, v =>
    if k' = k then (k, v) :: rest else (k', v') :: AssocList.set rest k v

/-- `NodeMeasurement`: one metric's node-granularity batch. -/
structure NodeMeasurement where
  key : String
  type : MetricTypes
  per_node : Measurement
  per_device : List (String × Measurement)
  unit_hint : Option String
  stats_filter : List String
  current_hook : Option Hook

/-- `ContainerMeasurement`: one metric's container-granularity batch. -/
structure ContainerMeasurement where
  key : String
  type : MetricTypes
  per_container : List (String × Measurement)
  unit_hint : Option String
  stats_filter : List String
  current_hook : Option Hook

/-- The three metric tables owned by `StatContext` (the agent reference,
lock, mode and timestamp table play no part in the merge logic). -/
structure StatContext where
  node_metrics : List (String × Metric)
  device_metrics : List (String × List (String × Metric))
  kernel_metrics : List (String × List (String × Metric))

/-- `StatContext.__init__`: all three tables start empty. -/
def StatContext.init : StatContext := ⟨[], [], []⟩

/-- The node-metric create-or-update step of `collect_node_stat` for one
`NodeMeasurement` (stats seeded with the per-node value on creation). -/
def mergeNodeMetric (nm : List (String × Metric)) (m : NodeMeasurement)
    (now : ℚ) : List (String × Metric) :=
  match List.lookup m.key nm with
  | none =>
    AssocList.set nm m.key
      ⟨⟨m.key, m.type, MovingStatistics.init (some m.per_node.value) now,
        m.stats_filter, m.per_node.value, m.per_node.capacity, m.unit_hint⟩,
       m.current_hook⟩
  | some metric => AssocList.set nm m.key (metric.update m.per_node now)

/-- The per-device create-or-update loop of `collect_node_stat` for one
`NodeMeasurement`: an empty inner table is inserted on demand, and a
fresh device metric takes its capacity from the measurement's capacity. -/
def mergeDeviceMetrics (dm : List (String × List (String × Metric)))
    (m : NodeMeasurement) (now : ℚ) :
    List (String × List (String × Metric)) :=
  m.per_device.foldl (fun dm p =>
    let table := (List.lookup m.key dm).getD []
    match List.lookup p.1 table with
    | none =>
      AssocList.set dm m.key (AssocList.set table p.1
        ⟨⟨m.key, m.type, MovingStatistics.init (some p.2.value) now,
          m.stats_filter, p.2.value, p.2.capacity, m.unit_hint⟩,
         m.current_hook⟩)
    | some metric =>
      AssocList.set dm m.key (AssocList.set table p.1
        (metric.update p.2 now))) dm

/-- The kernel-metric create-or-update step shared verbatim by
`collect_node_stat` (lines 345-358) and `collect_container_stat`
(lines 422-435): an empty inner table is inserted on demand, and a fresh
kernel metric's capacity is set to `measure.value` — the measurement's
value, not its capacity. -/
def mergeContainerSample (km : List (String × List (String × Metric)))
    (cm : ContainerMeasurement) (kernel_id : String) (measure : Measurement)
    (now : ℚ) : List (String × List (String × Metric)) :=
  let table := (List.lookup kernel_id km).getD []
  match List.lookup cm.key table with
  | none =>
    AssocList.set km kernel_id (AssocList.set table cm.key
      ⟨⟨cm.key, cm.type, MovingStatistics.init (some measure.value) now,
        cm.stats_filter, measure.value, some (.fin measure.value),
        cm.unit_hint⟩,
       cm.current_hook⟩)
  | some metric =>
    AssocList.set km kernel_id (AssocList.set table cm.key
      (metric.update measure now))

/-- `kernel_id_map`: built by iterating the registry and writing
`kernel_id_map[cid] = kid` (a later kernel with the same container id
overwrites an earlier one, as in a Python dict). -/
def buildKernelIdMap (registry : List (String × String)) :
    List (String × String) :=
  registry.foldl (fun m kv => AssocList.set m kv.2 kv.1) []

/-- The per-container loop of `collect_node_stat` for one
`ContainerMeasurement`: each container id is resolved by the unguarded
subscript `kernel_id_map[cid]`, so an unresolvable id raises `KeyError`
(embedded as `none`) out of the round. -/
def mergeContainerMeasure (km : List (String × List (String × Metric)))
    (kernel_id_map : List (String × String)) (cm : ContainerMeasurement)
    (now : ℚ) : Option (List (String × List (String × Metric))) :=
  cm.per_container.foldlM (fun km p =>
    match List.lookup p.1 kernel_id_map with
    | none => none
    | some kid => some (mergeContainerSample km cm kid p.2 now)) km

/-- One `NodeMeasurement` merge step of `collect_node_stat`: the node
metric and the per-device metrics are created-or-updated. -/
def nodeStatMeasureStep (now : ℚ) (c : StatContext) (m : NodeMeasurement) :
    StatContext :=
  { c with
    node_metrics := mergeNodeMetric c.node_metrics m now
    device_metrics := mergeDeviceMetrics c.device_metrics m now }

/-- One gather result of the node phase of `collect_node_stat`: a
failed gather (`error`) is logged and skipped, a successful one has its
measurements merged in order. -/
def nodeStatBatchStep (now : ℚ) (c : StatContext)
    (b : Except Unit (List NodeMeasurement)) : StatContext :=
  match b with
  | .error _ => c
  | .ok measures => measures.foldl (nodeStatMeasureStep now) c

/-- One gather result of the container phase of `collect_node_stat`:
a failed gather is skipped, a successful one has each measurement's
per-container samples merged (a `KeyError`, `none`, escapes). -/
def nodeStatCtnrBatchStep (kernel_id_map : List (String × String))
    (now : ℚ) (km : List (String × List (String × Metric)))
    (b : Except Unit (List ContainerMeasurement)) :
    Option (List (String × List (String × Metric))) :=
  match b with
  | .error _ => some km
  | .ok measures => measures.foldlM (fun km cm =>
      mergeContainerMeasure km kernel_id_map cm now) km

/-- `StatContext.collect_node_stat`, the in-memory merge phase: node and
device batches are merged (a failed gather is logged and skipped), stale
kernel ids are pruned against the registry snapshot, and container
batches are merged; the Redis publication is external I/O and not
modelled.  `registry` is the `kernel_registry` snapshot as a list of
`(kernel id, container id)` pairs; each gather result is `Except Unit`
(`error` embeds a gather exception); `now` stands for the clock readings
of the round.  The result is `none` when the round raises. -/
def collect_node_stat (ctx : StatContext) (registry : List (String × String))
    (node_batches : List (Except Unit (List NodeMeasurement)))
    (ctnr_batches : List (Except Unit (List ContainerMeasurement)))
    (now : ℚ) : Option StatContext :=
  let ctx1 := node_batches.foldl (nodeStatBatchStep now) ctx
  let used_kernel_ids := registry.map Prod.fst
  let kernel_id_map := buildKernelIdMap registry
  let pruned := ctx1.kernel_metrics.filter
    (fun kv => used_kernel_ids.contains kv.1)
  match ctnr_batches.foldlM (nodeStatCtnrBatchStep kernel_id_map now)
      pruned with
  | none => none
  | some km => some { ctx1 with kernel_metrics := km }

/-- The per-sample body of the single-container merge loop of
`collect_container_stat`: `assert cid == container_id` raises (`none`)
on a foreign container id, a `KeyError` from `kernel_id_map[cid]` is
caught and skipped, and a resolved kernel id is recorded in the state
(second component) along with the merged sample. -/
def containerStatPointStep (container_id : String)
    (kernel_id_map : List (String × String)) (now : ℚ)
    (cm : ContainerMeasurement)
    (s : List (String × List (String × Metric)) × Option String)
    (p : String × Measurement) :
    Option (List (String × List (String × Metric)) × Option String) :=
  if p.1 ≠ container_id then none
  else match List.lookup p.1 kernel_id_map with
    | none => some s
    | some kid => some (mergeContainerSample s.1 cm kid p.2 now, some kid)

/-- One `ContainerMeasurement` of the single-container round. -/
def containerStatMeasureStep (container_id : String)
    (kernel_id_map : List (String × String)) (now : ℚ)
    (s : List (String × List (String × Metric)) × Option String)
    (cm : ContainerMeasurement) :
    Option (List (String × List (String × Metric)) × Option String) :=
  cm.per_container.foldlM
    (containerStatPointStep container_id kernel_id_map now cm) s

/-- One gather result of the single-container round: a failed gather is
logged and skipped. -/
def containerStatBatchStep (container_id : String)
    (kernel_id_map : List (String × String)) (now : ℚ)
    (s : List (String × List (String × Metric)) × Option String)
    (b : Except Unit (List ContainerMeasurement)) :
    Option (List (String × List (String × Metric)) × Option String) :=
  match b with
  | .error _ => some s
  | .ok measures =>
    measures.foldlM (containerStatMeasureStep container_id kernel_id_map now)
      s

/-- `StatContext.collect_container_stat`, the in-memory merge phase: the
container batches for one container id are merged; the loop state pairs
the kernel-metric table with the last resolved `kernel_id` (initially
`None`).  Returns the updated context and the metric table of the
resolved kernel (empty when no kernel id was resolved); the Redis
publication is not modelled.  The result is `none` when the round
raises. -/
def collect_container_stat (ctx : StatContext)
    (registry : List (String × String)) (container_id : String)
    (ctnr_batches : List (Except Unit (List ContainerMeasurement)))
    (now : ℚ) : Option (StatContext × List (String × Metric)) :=
  let kernel_id_map := buildKernelIdMap registry
  match ctnr_batches.foldlM
      (containerStatBatchStep container_id kernel_id_map now)
      (ctx.kernel_metrics, none) with
  | none => none
  | some (km, some kid) =>
    some ({ ctx with kernel_metrics := km }, (List.lookup kid km).getD [])
  | some (km, none) => some ({ ctx with kernel_metrics := km }, [])

/-- Feed a list of `(value, timestamp)` points through
`MovingStatistics.update` in order. -/
def runUpdates (st : MovingStatistics) (ps : List (ℚ × ℚ)) :
    MovingStatistics :=
  ps.foldl (fun s p => s.update p.1 p.2) st

/-- The count of every metric of a kernel/device-style inner table is at
least one. -/
def TableCountPos (tbl : List (String × Metric)) : Prop :=
  ∀ p ∈ tbl, 1 ≤ p.2.data.stats.count

/-- Every metric resident in any of the three tables wraps statistics
with a positive count. -/
def CtxCountPos (ctx : StatContext) : Prop :=
  (∀ p ∈ ctx.node_metrics, 1 ≤ p.2.data.stats.count) ∧
  (∀ p ∈ ctx.device_metrics, TableCountPos p.2) ∧
  (∀ p ∈ ctx.kernel_metrics, TableCountPos p.2)

/-- A list of container-measurement batches is well formed for a
single-container round: every sample's container id is the requested
one (the `assert` in `collect_container_stat` enforces this). -/
def batchesFor (cb : List (Except Unit (List ContainerMeasurement)))
    (container_id : String) : Bool :=
  cb.all fun b =>
    match b with
    | .error _ => true
    | .ok measures => measures.all fun cm =>
        cm.per_container.all fun p => p.1 = container_id

/-- Sample container batch whose container id `c-gone` appears in no
registry: exercises the resolution-failure paths. -/
def cmGone : ContainerMeasurement :=
  ⟨"cpu_used", .USAGE, [("c-gone", ⟨1, none⟩)], none, [], none⟩

/-- Sample registry with one kernel `k1` running container `c1`. -/
def regW : List (String × String) := [("k1", "c1")]

/-- Sample container batch for container `c1`. -/
def cmW : ContainerMeasurement :=
  ⟨"cpu_used", .USAGE, [("c1", ⟨3, none⟩)], none, [], none⟩

/-- The metric `collect_node_stat` creates for `(k1, cpu_used)` from
`cmW` at time 0. -/
def mW : Metric :=
  ⟨⟨"cpu_used", .USAGE, ⟨3, 1, .fin 3, .fin 3, [(3, 0)]⟩, [], 3,
    some (.fin 3), none⟩, none⟩

/-- A metric with a finite negative capacity (stats seeded with 1). -/
def metricNegCap : Metric :=
  ⟨⟨"m", .USAGE, MovingStatistics.init (some 1) 0, [], 1,
    some (.fin (-1)), none⟩, none⟩

/-- A metric with capacity 4 and current 1 (stats seeded with 1). -/
def metricPosCap : Metric :=
  ⟨⟨"m", .USAGE, MovingStatistics.init (some 1) 0, [], 1,
    some (.fin 4), none⟩, none⟩

/-- The claim-C4 metric: freshly constructed around statistics seeded
with value 5, capacity 10, no current hook. -/
def metricC4 : Metric :=
  ⟨⟨"demo", .USAGE, MovingStatistics.init (some 5) 0, [], 5,
    some (.fin 10), none⟩, none⟩

/-- `metricC4` after `update(Measurement(value=7, capacity=10))` at
time 1. -/
def metricC4upd : Metric := metricC4.update ⟨7, some (.fin 10)⟩ 1

/-- Sample node measurement with one device `d0` (value 2, capacity 8)
and node value 5 with capacity 16. -/
def nmW : NodeMeasurement :=
  ⟨"mem_used", .USAGE, ⟨5, some (.fin 16)⟩, [("d0", ⟨2, some (.fin 8)⟩)],
    none, [], none⟩

/-! ### Helper lemmas -/

theorem AssocList.mem_set {α : Type} (m : List (String × α)) (k : String)
    (v : α) : ∀ p ∈ AssocList.set m k v, p = (k, v) ∨ p ∈ m := by
  induction m with
  | nil => intro p hp; simp only [AssocList.set, List.mem_singleton] at hp
           exact Or.inl hp
  | cons a rest ih =>
    obtain ⟨k', v'⟩ := a
    intro p hp
    simp only [AssocList.set] at hp
    by_cases h : k' = k
    · rw [if_pos h] at hp
      rcases List.mem_cons.mp hp with h1 | h1
      · exact Or.inl h1
      · exact Or.inr (List.mem_cons_of_mem _ h1)
    · rw [if_neg h] at hp
      rcases List.mem_cons.mp hp with h1 | h1
      · exact Or.inr (h1 ▸ List.mem_cons_self _ _)
      · rcases ih p h1 with h2 | h2
        · exact Or.inl h2
        · exact Or.inr (List.mem_cons_of_mem _ h2)

theorem lookup_pair_cons {α : Type} (k' k1 : String) (v1 : α)
    (l : List (String × α)) :
    List.lookup k' ((k1, v1) :: l) =
      if k' = k1 then some v1 else List.lookup k' l := by
  by_cases h : k' = k1
  · rw [if_pos h]
    subst h
    simp [List.lookup]
  · rw [if_neg h]
    have hb : (k' == k1) = false := beq_false_of_ne h
    simp [List.lookup, hb]

theorem AssocList.lookup_set {α : Type} (m : List (String × α)) (k k' : String)
    (v : α) :
    List.lookup k' (AssocList.set m k v) =
      if k' = k then some v else List.lookup k' m := by
  induction m with
  | nil =>
    by_cases h : k' = k <;> simp [AssocList.set, lookup_pair_cons, h]
  | cons a rest ih =>
    obtain ⟨k₀, v₀⟩ := a
    simp only [AssocList.set]
    by_cases h0 : k₀ = k
    · subst h0
      rw [if_pos rfl, lookup_pair_cons, lookup_pair_cons]
      by_cases h : k' = k₀ <;> simp [h]
    · rw [if_neg h0, lookup_pair_cons, lookup_pair_cons]
      by_cases h : k' = k₀
      · rw [if_pos h, if_pos h, if_neg (fun hk => h0 ((h.symm.trans hk)))]
      · rw [if_neg h, if_neg h, ih]

theorem lookup_pair_mem {α : Type} (m : List (String × α)) (k : String)
    (v : α) (h : List.lookup k m = some v) : (k, v) ∈ m := by
  induction m with
  | nil => simp [List.lookup] at h
  | cons a rest ih =>
    obtain ⟨k₀, v₀⟩ := a
    rw [lookup_pair_cons] at h
    by_cases hk : k = k₀
    · rw [if_pos hk] at h
      cases h
      exact hk ▸ List.mem_cons_self _ _
    · rw [if_neg hk] at h
      exact List.mem_cons_of_mem _ (ih h)

theorem foldl_preserve {β γ : Type} (P : β → Prop) (f : β → γ → β)
    (hf : ∀ b c, P b → P (f b c)) :
    ∀ (l : List γ) (b : β), P b → P (List.foldl f b l) := by
  intro l
  induction l with
  | nil => intro b hb; exact hb
  | cons c rest ih => intro b hb; exact ih (f b c) (hf b c hb)

theorem foldlM_option_preserve {β γ : Type} (P : β → Prop)
    (f : β → γ → Option β)
    (hf : ∀ b c b', P b → f b c = some b' → P b') :
    ∀ (l : List γ) (b b' : β), P b → List.foldlM f b l = some b' → P b' := by
  intro l
  induction l with
  | nil =>
    intro b b' hb h
    simp only [List.foldlM_nil] at h
    cases h
    exact hb
  | cons c rest ih =>
    intro b b' hb h
    rw [List.foldlM_cons] at h
    cases hstep : f b c with
    | none => rw [hstep] at h; cases h
    | some b1 =>
      rw [hstep] at h
      simp only [Option.bind_eq_bind, Option.some_bind] at h
      exact ih b1 b' (hf b c b1 hb hstep) h

theorem Dec.minD_fin (a b : ℚ) : Dec.minD (.fin a) (.fin b) = .fin (a ⊓ b) := by
  simp only [Dec.minD, Dec.lt]
  by_cases h : b < a
  · simp [h, inf_eq_right.mpr (le_of_lt h)]
  · simp [h, inf_eq_left.mpr (le_of_not_lt h)]

theorem Dec.maxD_fin (a b : ℚ) : Dec.maxD (.fin a) (.fin b) = .fin (a ⊔ b) := by
  simp only [Dec.maxD, Dec.lt]
  by_cases h : a < b
  · simp [h, sup_eq_right.mpr (le_of_lt h)]
  · simp [h, sup_eq_left.mpr (le_of_not_lt h)]

theorem Dec.minD_inf_fin (b : ℚ) : Dec.minD .inf (.fin b) = .fin b := by
  simp [Dec.minD, Dec.lt]

theorem Dec.maxD_negInf_fin (b : ℚ) : Dec.maxD .negInf (.fin b) = .fin b := by
  simp [Dec.maxD, Dec.lt]

theorem roundHalfEven_intCast (n : ℤ) : roundHalfEven (n : ℚ) = n := by
  simp only [roundHalfEven, Int.floor_intCast]
  norm_num

theorem stripZeros_val (n : ℕ) :
    ∀ c e : ℤ, (stripZeros n c e).val = DecRep.val ⟨c, e⟩ := by
  induction n with
  | zero => intro c e; rfl
  | succ n ih =>
    intro c e
    simp only [stripZeros]
    by_cases h : c % 10 = 0 ∧ c ≠ 0
    · rw [if_pos h, ih]
      obtain ⟨t, ht⟩ : (10 : ℤ) ∣ c := Int.dvd_of_emod_eq_zero h.1
      subst ht
      rw [Int.mul_ediv_cancel_left _ (by norm_num)]
      simp only [DecRep.val]
      rw [zpow_add_one₀ (by norm_num : (10 : ℚ) ≠ 0)]
      push_cast
      ring
    · rw [if_neg h]

theorem DecRep.isIntegral_val (d : DecRep) (h : d.isIntegral = true) :
    ∃ m : ℤ, d.val = (m : ℚ) := by
  by_cases he : 0 ≤ d.exp
  · refine ⟨d.coeff * 10 ^ d.exp.toNat, ?_⟩
    have hv : d.val = (d.coeff : ℚ) * (10 : ℚ) ^ ((d.exp.toNat : ℤ)) := by
      simp only [DecRep.val]
      rw [Int.toNat_of_nonneg he]
    rw [hv, zpow_natCast]
    push_cast
    ring
  · have h' : (10 : ℤ) ^ (-d.exp).toNat ∣ d.coeff := by
      simp only [DecRep.isIntegral, decide_eq_true_eq] at h
      rcases h with h | h
      · exact absurd h he
      · exact h
    obtain ⟨t, ht⟩ := h'
    refine ⟨t, ?_⟩
    simp only [DecRep.val, ht]
    push_cast
    rw [show (10 : ℚ) ^ d.exp = ((10 : ℚ) ^ ((-d.exp).toNat : ℤ))⁻¹ by
      rw [Int.toNat_of_nonneg (by omega : (0 : ℤ) ≤ -d.exp), zpow_neg, inv_inv]]
    rw [zpow_natCast, mul_comm ((10 : ℚ) ^ (-d.exp).toNat) (t : ℚ), mul_assoc,
      mul_inv_cancel₀ (by positivity : ((10 : ℚ) ^ (-d.exp).toNat) ≠ 0)]
    ring

theorem remove_exponent_val (d : DecRep) : (remove_exponent d).val = d.val := by
  simp only [remove_exponent]
  by_cases h : d.isIntegral = true
  · rw [if_pos h]
    obtain ⟨m, hm⟩ := DecRep.isIntegral_val d h
    rw [hm]
    simp only [roundHalfEven_intCast, DecRep.val]
    norm_num
  · rw [if_neg h, stripZeros_val]

theorem quantize3_val (q : ℚ) :
    (quantize3 q).val = (roundHalfEven (q * 1000) : ℚ) / 1000 := by
  simp only [quantize3, DecRep.val]
  rw [show ((-3 : ℤ)) = -((3 : ℕ) : ℤ) by norm_num, zpow_neg, zpow_natCast]
  norm_num
  ring

theorem quantize2_val (q : ℚ) :
    (quantize2 q).val = (roundHalfEven (q * 100) : ℚ) / 100 := by
  simp only [quantize2, DecRep.val]
  rw [show ((-2 : ℤ)) = -((2 : ℕ) : ℤ) by norm_num, zpow_neg, zpow_natCast]
  norm_num
  ring

theorem fmt3_val (q : ℚ) :
    (fmt3 q).val = (roundHalfEven (q * 1000) : ℚ) / 1000 := by
  rw [fmt3, remove_exponent_val, quantize3_val]

theorem fmt2_val (q : ℚ) :
    (fmt2 q).val = (roundHalfEven (q * 100) : ℚ) / 100 := by
  rw [fmt2, remove_exponent_val, quantize2_val]

/-- **C8.** Serialization formatting is idempotent: re-applying the
quantize-and-strip formatting (3 fractional places for magnitudes, 2 for
percentages) to the numeric value of an already-formatted output
reproduces the same representation — and equal representations print as
the same string — so a second serialization of the same underlying
state equals the first. -/
theorem formatting_idempotent :
    (∀ q : ℚ, fmt3 ((fmt3 q).val) = fmt3 q) ∧
    (∀ q : ℚ, fmt2 ((fmt2 q).val) = fmt2 q) := by
  constructor
  · intro q
    have h3 : quantize3 ((fmt3 q).val) = quantize3 q := by
      simp only [quantize3, fmt3_val]
      rw [div_mul_cancel₀ _ (by norm_num : (1000 : ℚ) ≠ 0),
        roundHalfEven_intCast]
    show remove_exponent (quantize3 ((fmt3 q).val)) = fmt3 q
    rw [h3]
    rfl
  · intro q
    have h2 : quantize2 ((fmt2 q).val) = quantize2 q := by
      simp only [quantize2, fmt2_val]
      rw [div_mul_cancel₀ _ (by norm_num : (100 : ℚ) ≠ 0),
        roundHalfEven_intCast]
    show remove_exponent (quantize2 ((fmt2 q).val)) = fmt2 q
    rw [h2]
    rfl

/-- **C4.** Updating the metric built around statistics seeded with
value 5 and capacity 10 by `Measurement(value=7, capacity=10)` (no
current hook) yields `current=7`, `capacity=10`, and embedded statistics
`min=5`, `max=7`, `sum=12`, `avg=6`, `diff=2`. -/
theorem metric_update_example :
    metricC4upd.data.current = 7 ∧
    metricC4upd.data.capacity = some (.fin 10) ∧
    metricC4upd.data.stats.min = .fin 5 ∧
    metricC4upd.data.stats.max = .fin 7 ∧
    metricC4upd.data.stats.sum = 12 ∧
    metricC4upd.data.stats.avg = some 6 ∧
    metricC4upd.data.stats.diff = 2 := by
  refine ⟨?_, ?_, ?_, ?_, ?_, ?_, ?_⟩ <;>
    simp [metricC4upd, metricC4, Metric.update, MovingStatistics.update,
      MovingStatistics.init, MovingStatistics.avg, MovingStatistics.diff,
      Dec.minD, Dec.maxD, Dec.lt] <;> norm_num

/-- **C7.** `avg` divides unguarded by the count: for any statistics
state the division raises exactly when `count = 0`, and under the
precondition `count ≥ 1` it is well defined and equals `sum / count`. -/
theorem avg_precondition (st : MovingStatistics) :
    (st.avg = none ↔ st.count = 0) ∧
    (1 ≤ st.count → st.avg = some (st.sum / (st.count : ℚ))) := by
  constructor
  · simp only [MovingStatistics.avg]
    by_cases h : st.count = 0 <;> simp [h]
  · intro h
    simp only [MovingStatistics.avg, if_neg (by omega : ¬ st.count = 0)]

/-- Witness for `avg_precondition` at the statistics seeded with 5. -/
theorem avg_precondition_witness :
    1 ≤ (MovingStatistics.init (some 5) 0).count ∧
    (MovingStatistics.init (some 5) 0).avg =
      some ((MovingStatistics.init (some 5) 0).sum /
        ((MovingStatistics.init (some 5) 0).count : ℚ)) :=
  ⟨by decide, (avg_precondition (MovingStatistics.init (some 5) 0)).2
    (by decide)⟩

theorem last_after_two_updates (st : MovingStatistics) (v1 t1 v2 t2 : ℚ)
    (h : st.last.length ≤ 2) :
    ((st.update v1 t1).update v2 t2).last = [(v1, t1), (v2, t2)] := by
  rcases hl : st.last with _ | ⟨a, _ | ⟨b, tail⟩⟩
  · simp [MovingStatistics.update, hl]
  · simp [MovingStatistics.update, hl]
  · have htail : tail = [] := by
      rw [hl] at h
      simp only [List.length_cons] at h
      exact List.eq_nil_of_length_eq_zero (by omega)
    subst htail
    simp [MovingStatistics.update, hl]

/-- **C6.** `diff` and `rate` are `0` while fewer than two points are
retained (in particular after a single update of an unseeded
accumulator), and after two further updates of any state with at most
two retained points they use exactly the two most recent `(value, time)`
points: `diff` is the value difference and `rate` is that difference
over the elapsed time, regardless of how many earlier updates occurred
(the `st.last.length ≤ 2` bound holds for every reachable state). -/
theorem diff_rate_window :
    (∀ st : MovingStatistics, st.last.length < 2 →
      st.diff = 0 ∧ st.rate = some 0) ∧
    (∀ (st : MovingStatistics) (v1 t1 v2 t2 : ℚ), st.last.length ≤ 2 →
      ((st.update v1 t1).update v2 t2).diff = v2 - v1 ∧
      (t2 - t1 ≠ 0 →
        ((st.update v1 t1).update v2 t2).rate =
          some ((v2 - v1) / (t2 - t1)))) := by
  constructor
  · intro st h
    rcases hl : st.last with _ | ⟨a, _ | ⟨b, tail⟩⟩
    · exact ⟨by simp [MovingStatistics.diff, hl],
        by simp [MovingStatistics.rate, hl]⟩
    · exact ⟨by simp [MovingStatistics.diff, hl],
        by simp [MovingStatistics.rate, hl]⟩
    · rw [hl] at h
      simp only [List.length_cons] at h
      omega
  · intro st v1 t1 v2 t2 h
    have hl := last_after_two_updates st v1 t1 v2 t2 h
    refine ⟨?_, fun hne => ?_⟩
    · simp [MovingStatistics.diff, hl]
    · simp [MovingStatistics.rate, hl, hne]

/-- Witness for `diff_rate_window`: the empty accumulator after one
update has one retained point, and two further updates at times 0 and 1
give `diff = 5` and `rate = 5`. -/
theorem diff_rate_window_witness :
    ((MovingStatistics.init none 0).update 1 0).last.length < 2 ∧
    ((MovingStatistics.init none 0).update 1 0).diff = 0 ∧
    ((MovingStatistics.init none 0).update 1 0).rate = some 0 ∧
    ((((MovingStatistics.init none 0).update 1 0).update 2 0).update 7 1).diff
      = 7 - 2 ∧
    ((((MovingStatistics.init none 0).update 1 0).update 2 0).update 7 1).rate
      = some ((7 - 2) / (1 - 0)) := by
  have h1 : ((MovingStatistics.init none 0).update 1 0).last.length < 2 := by
    simp [MovingStatistics.init, MovingStatistics.update]
  have h2 := diff_rate_window.1 ((MovingStatistics.init none 0).update 1 0) h1
  have h3 := diff_rate_window.2 ((MovingStatistics.init none 0).update 1 0)
    2 0 7 1 (by omega)
  exact ⟨h1, h2.1, h2.2, h3.1, h3.2 (by norm_num)⟩

/-- **C3 (counterexample).** The claim says `pct` is null exactly when
capacity is absent, zero, or non-finite.  `metricNegCap` has the finite
nonzero capacity `-1`, yet its serialization emits `pct = null`,
because the source also requires `capacity > 0`. -/
theorem pct_negative_capacity_counterexample :
    metricNegCap.data.capacity = some (.fin (-1)) ∧ ((-1 : ℚ) ≠ 0) ∧
    (∃ mv : MetricValue, metricNegCap.to_serializable_dict = some mv ∧
      mv.pct = none) := by
  refine ⟨rfl, by norm_num, ?_⟩
  refine ⟨_, rfl, ?_⟩
  simp only [metricNegCap, Metric.to_serializable_dict,
    MovingStatistics.to_serializable_dict, MovingStatistics.init,
    MovingStatistics.avg, MovingStatistics.rate, MovingStatistics.diff,
    quantizeDec3, Dec.is_normal, Dec.posB]
  norm_num

/-- **C3 (amended).** For every serialization that completes,
`pct = null` exactly when capacity is absent or a non-positive finite
value; when capacity is a finite positive value, `pct` is
`current/capacity*100` quantized to two fractional digits.  A
non-finite capacity does not yield `pct = null`: quantizing it for the
`capacity` field raises, so the whole serialization fails. -/
theorem pct_condition :
    (∀ (m : Metric) (mv : MetricValue), m.to_serializable_dict = some mv →
      ((mv.pct = none ↔ m.data.capacity = none ∨
          ∃ c : ℚ, m.data.capacity = some (.fin c) ∧ c ≤ 0) ∧
       (∀ c : ℚ, m.data.capacity = some (.fin c) → 0 < c →
         mv.pct = some (fmt2 (m.data.current / c * 100))))) ∧
    (∀ m : Metric,
      (m.data.capacity = some .inf ∨ m.data.capacity = some .negInf ∨
        m.data.capacity = some .nan) →
      m.to_serializable_dict = none) := by
  constructor
  · intro m mv h
    simp only [Metric.to_serializable_dict] at h
    cases hc : m.data.capacity with
    | none =>
      rw [hc] at h
      cases hs : m.data.stats.to_serializable_dict with
      | none => rw [hs] at h; cases h
      | some sd =>
        rw [hs] at h
        simp only [Option.some.injEq] at h
        subst h
        constructor
        · simp
        · intro c hcap
          cases hcap
    | some c =>
      cases c with
      | fin cq =>
        rw [hc] at h
        simp only [quantizeDec3] at h
        cases hs : m.data.stats.to_serializable_dict with
        | none => rw [hs] at h; cases h
        | some sd =>
          rw [hs] at h
          simp only [Option.some.injEq] at h
          subst h
          by_cases hpos : 0 < cq
          · have hcond : (Dec.is_normal (.fin cq) = true) ∧
                (Dec.posB (.fin cq) = true) := by
              constructor
              · simp [Dec.is_normal, ne_of_gt hpos]
              · simp [Dec.posB, hpos]
            constructor
            · rw [if_pos hcond]
              simp only [Option.some_ne_none, false_iff]
              rintro (hnone | ⟨c', hc', hle⟩)
              · cases hnone
              · simp only [Option.some.injEq, Dec.fin.injEq] at hc'
                subst hc'
                exact absurd hpos (not_lt.mpr hle)
            · intro c' hc' hpos'
              simp only [Option.some.injEq, Dec.fin.injEq] at hc'
              subst hc'
              show (if (Dec.is_normal (.fin cq) = true) ∧
                  (Dec.posB (.fin cq) = true) then
                  some (fmt2 (m.data.current / cq * 100)) else none) =
                some (fmt2 (m.data.current / cq * 100))
              rw [if_pos hcond]
          · have hcond : ¬ ((Dec.is_normal (.fin cq) = true) ∧
                (Dec.posB (.fin cq) = true)) := by
              rintro ⟨h1, h2⟩
              simp [Dec.posB] at h2
              exact hpos h2
            constructor
            · rw [if_neg hcond]
              simp only [true_iff]
              exact Or.inr ⟨cq, rfl, le_of_not_lt hpos⟩
            · intro c' hc' hpos'
              simp only [Option.some.injEq, Dec.fin.injEq] at hc'
              subst hc'
              exact absurd hpos' hpos
      | inf =>
        rw [hc] at h
        simp only [quantizeDec3] at h
        cases h
      | negInf =>
        rw [hc] at h
        simp only [quantizeDec3] at h
        cases h
      | nan =>
        rw [hc] at h
        simp only [quantizeDec3] at h
        cases h
  · intro m hcap
    simp only [Metric.to_serializable_dict]
    rcases hcap with hc | hc | hc <;> rw [hc] <;> simp [quantizeDec3]

/-- Witness for `pct_condition` at a metric with capacity 4 and
current 1: the serialization completes and `pct = 25.00` stripped. -/
theorem pct_condition_witness :
    ∃ mv : MetricValue, metricPosCap.to_serializable_dict = some mv ∧
      mv.pct = some (fmt2 ((1 : ℚ) / 4 * 100)) := by
  obtain ⟨mv, hmv⟩ : ∃ mv, metricPosCap.to_serializable_dict = some mv := by
    simp [metricPosCap, Metric.to_serializable_dict,
      MovingStatistics.to_serializable_dict, MovingStatistics.init,
      MovingStatistics.avg, MovingStatistics.rate, quantizeDec3]
  exact ⟨mv, hmv, (pct_condition.1 metricPosCap mv hmv).2 4 rfl
    (by norm_num)⟩

theorem update_inv (st : MovingStatistics) (mn mx : ℚ)
    (hmin : st.min = .fin mn) (hmax : st.max = .fin mx)
    (hcount : 1 ≤ st.count)
    (hlo : (st.count : ℚ) * mn ≤ st.sum)
    (hhi : st.sum ≤ (st.count : ℚ) * mx) (v t : ℚ) :
    (st.update v t).min = .fin (min mn v) ∧
    (st.update v t).max = .fin (max mx v) ∧
    1 ≤ (st.update v t).count ∧
    ((st.update v t).count : ℚ) * (min mn v) ≤ (st.update v t).sum ∧
    (st.update v t).sum ≤ ((st.update v t).count : ℚ) * (max mx v) := by
  have hm : (st.update v t).min = .fin (min mn v) := by
    show Dec.minD st.min (.fin v) = .fin (min mn v)
    rw [hmin, Dec.minD_fin, inf_eq_min]
  have hM : (st.update v t).max = .fin (max mx v) := by
    show Dec.maxD st.max (.fin v) = .fin (max mx v)
    rw [hmax, Dec.maxD_fin, sup_eq_max]
  have hcnt : (st.update v t).count = st.count + 1 := rfl
  have hsum : (st.update v t).sum = st.sum + v := rfl
  have hn : (1 : ℚ) ≤ (st.count : ℚ) := by exact_mod_cast hcount
  refine ⟨hm, hM, by omega, ?_, ?_⟩
  · rw [hcnt, hsum]
    push_cast
    have h1 : (st.count : ℚ) * (min mn v) ≤ (st.count : ℚ) * mn :=
      mul_le_mul_of_nonneg_left (min_le_left _ _) (by linarith)
    have h2 : min mn v ≤ v := min_le_right _ _
    linarith
  · rw [hcnt, hsum]
    push_cast
    have h1 : (st.count : ℚ) * mx ≤ (st.count : ℚ) * (max mx v) :=
      mul_le_mul_of_nonneg_left (le_max_left _ _) (by linarith)
    have h2 : v ≤ max mx v := le_max_right _ _
    linarith

theorem runUpdates_inv (ps : List (ℚ × ℚ)) :
    ∀ (st : MovingStatistics) (mn mx : ℚ),
    st.min = .fin mn → st.max = .fin mx → 1 ≤ st.count →
    (st.count : ℚ) * mn ≤ st.sum → st.sum ≤ (st.count : ℚ) * mx →
    (runUpdates st ps).min = .fin ((ps.map Prod.fst).foldl min mn) ∧
    (runUpdates st ps).max = .fin ((ps.map Prod.fst).foldl max mx) ∧
    1 ≤ (runUpdates st ps).count ∧
    ((runUpdates st ps).count : ℚ) * ((ps.map Prod.fst).foldl min mn) ≤
      (runUpdates st ps).sum ∧
    (runUpdates st ps).sum ≤
      ((runUpdates st ps).count : ℚ) * ((ps.map Prod.fst).foldl max mx) := by
  induction ps with
  | nil => intro st mn mx h1 h2 h3 h4 h5; exact ⟨h1, h2, h3, h4, h5⟩
  | cons p rest ih =>
    intro st mn mx h1 h2 h3 h4 h5
    obtain ⟨g1, g2, g3, g4, g5⟩ :=
      update_inv st mn mx h1 h2 h3 h4 h5 p.1 p.2
    have hstep : runUpdates st (p :: rest) =
        runUpdates (st.update p.1 p.2) rest := rfl
    rw [hstep, List.map_cons, List.foldl_cons, List.foldl_cons]
    exact ih (st.update p.1 p.2) (min mn p.1) (max mx p.1) g1 g2 g3 g4 g5

/-- **C5.** For every non-empty sequence of values fed through
`MovingStatistics.update` — starting either from the seeded constructor
or from the unseeded constructor followed by a first update — `min` (and
`max`) equals the exact minimum (maximum) of all submitted values, and
`min ≤ avg ≤ max` holds with `avg = sum / count`. -/
theorem stats_min_max_avg_invariant :
    (∀ (v0 t0 : ℚ) (ps : List (ℚ × ℚ)),
      (runUpdates (MovingStatistics.init (some v0) t0) ps).min =
        .fin ((ps.map Prod.fst).foldl min v0) ∧
      (runUpdates (MovingStatistics.init (some v0) t0) ps).max =
        .fin ((ps.map Prod.fst).foldl max v0) ∧
      (∃ a : ℚ,
        (runUpdates (MovingStatistics.init (some v0) t0) ps).avg = some a ∧
        (ps.map Prod.fst).foldl min v0 ≤ a ∧
        a ≤ (ps.map Prod.fst).foldl max v0)) ∧
    (∀ (v t : ℚ) (ps : List (ℚ × ℚ)),
      (runUpdates ((MovingStatistics.init none 0).update v t) ps).min =
        .fin ((ps.map Prod.fst).foldl min v) ∧
      (runUpdates ((MovingStatistics.init none 0).update v t) ps).max =
        .fin ((ps.map Prod.fst).foldl max v) ∧
      (∃ a : ℚ,
        (runUpdates ((MovingStatistics.init none 0).update v t) ps).avg =
          some a ∧
        (ps.map Prod.fst).foldl min v ≤ a ∧
        a ≤ (ps.map Prod.fst).foldl max v)) := by
  have main : ∀ (st : MovingStatistics) (s : ℚ) (ps : List (ℚ × ℚ)),
      st.min = .fin s → st.max = .fin s → st.count = 1 → st.sum = s →
      (runUpdates st ps).min = .fin ((ps.map Prod.fst).foldl min s) ∧
      (runUpdates st ps).max = .fin ((ps.map Prod.fst).foldl max s) ∧
      (∃ a : ℚ, (runUpdates st ps).avg = some a ∧
        (ps.map Prod.fst).foldl min s ≤ a ∧
        a ≤ (ps.map Prod.fst).foldl max s) := by
    intro st s ps h1 h2 h3 h4
    obtain ⟨g1, g2, g3, g4, g5⟩ := runUpdates_inv ps st s s h1 h2 (by omega)
      (by rw [h3, h4]; norm_num) (by rw [h3, h4]; norm_num)
    refine ⟨g1, g2, (runUpdates st ps).sum / ((runUpdates st ps).count : ℚ),
      ?_, ?_, ?_⟩
    · simp only [MovingStatistics.avg]
      rw [if_neg (show ¬ (runUpdates st ps).count = 0 by omega)]
    · have hpos : (0 : ℚ) < ((runUpdates st ps).count : ℚ) := by
        exact_mod_cast g3
      rw [le_div_iff₀ hpos]
      linarith [g4]
    · have hpos : (0 : ℚ) < ((runUpdates st ps).count : ℚ) := by
        exact_mod_cast g3
      rw [div_le_iff₀ hpos]
      linarith [g5]
  constructor
  · intro v0 t0 ps
    exact main (MovingStatistics.init (some v0) t0) v0 ps rfl rfl rfl rfl
  · intro v t ps
    have hu : ((MovingStatistics.init none 0).update v t).min = .fin v := by
      show Dec.minD .inf (.fin v) = .fin v
      exact Dec.minD_inf_fin v
    have hU : ((MovingStatistics.init none 0).update v t).max = .fin v := by
      show Dec.maxD .negInf (.fin v) = .fin v
      exact Dec.maxD_negInf_fin v
    have hc : ((MovingStatistics.init none 0).update v t).count = 1 := rfl
    have hsm : ((MovingStatistics.init none 0).update v t).sum = v := by
      show (0 : ℚ) + v = v
      ring
    exact main _ v ps hu hU hc hsm

/-- **C9.** Creating a kernel-scoped metric on first observation of a
`(kernel id, metric key)` pair sets its capacity to the measurement's
value, whereas the node and device creation paths set it to the
measurement's capacity. -/
theorem creation_capacity (km : List (String × List (String × Metric)))
    (cm : ContainerMeasurement) (kid : String) (meas : Measurement)
    (now : ℚ)
    (hnew : List.lookup cm.key ((List.lookup kid km).getD []) = none) :
    ((List.lookup cm.key
        ((List.lookup kid (mergeContainerSample km cm kid meas now)).getD
          [])).map (fun m => m.data.capacity) =
      some (some (.fin meas.value))) ∧
    (∀ (nm : List (String × Metric)) (nmeas : NodeMeasurement),
      List.lookup nmeas.key nm = none →
      (List.lookup nmeas.key (mergeNodeMetric nm nmeas now)).map
          (fun m => m.data.capacity) =
        some nmeas.per_node.capacity) ∧
    (∀ (dm : List (String × List (String × Metric)))
        (nmeas : NodeMeasurement) (dev : String) (dmeas : Measurement),
      nmeas.per_device = [(dev, dmeas)] →
      List.lookup dev ((List.lookup nmeas.key dm).getD []) = none →
      (List.lookup dev
          ((List.lookup nmeas.key (mergeDeviceMetrics dm nmeas now)).getD
            [])).map (fun m => m.data.capacity) =
        some dmeas.capacity) := by
  refine ⟨?_, ?_, ?_⟩
  · simp only [mergeContainerSample, hnew]
    rw [AssocList.lookup_set, if_pos rfl]
    simp only [Option.getD_some]
    rw [AssocList.lookup_set, if_pos rfl]
    rfl
  · intro nm nmeas hz
    simp only [mergeNodeMetric, hz]
    rw [AssocList.lookup_set, if_pos rfl]
    rfl
  · intro dm nmeas dev dmeas hdev hz
    simp only [mergeDeviceMetrics, hdev, List.foldl_cons, List.foldl_nil, hz]
    rw [AssocList.lookup_set, if_pos rfl]
    simp only [Option.getD_some]
    rw [AssocList.lookup_set, if_pos rfl]
    rfl

/-- Witness for `creation_capacity` at concrete fresh tables: the kernel
metric records capacity 3 (the sample's value, not its capacity 99),
the node metric records capacity 16, the device metric capacity 8. -/
theorem creation_capacity_witness :
    ((List.lookup cmW.key
        ((List.lookup "k1"
          (mergeContainerSample [] cmW "k1" ⟨3, some (.fin 99)⟩ 0)).getD
            [])).map (fun m => m.data.capacity) =
      some (some (.fin 3))) ∧
    ((List.lookup nmW.key (mergeNodeMetric [] nmW 0)).map
        (fun m => m.data.capacity) = some nmW.per_node.capacity) ∧
    ((List.lookup "d0"
        ((List.lookup nmW.key (mergeDeviceMetrics [] nmW 0)).getD
          [])).map (fun m => m.data.capacity) = some (some (.fin 8))) := by
  have h := creation_capacity [] cmW "k1" ⟨3, some (.fin 99)⟩ 0 rfl
  exact ⟨h.1, h.2.1 [] nmW rfl, h.2.2 [] nmW "d0" ⟨2, some (.fin 8)⟩ rfl rfl⟩

/-- **C1 (counterexample).** In a full round, a container id absent from
the kernel-id map is NOT skipped silently: the unguarded subscript
`kernel_id_map[cid]` raises `KeyError` out of `collect_node_stat`
(embedded as `none`), here with an empty registry and a single batch
reporting container `c-gone`. -/
theorem node_round_keyerror_counterexample :
    collect_node_stat StatContext.init [] [] [Except.ok [cmGone]] 0 =
      none := rfl

theorem mergeContainerMeasure_unresolved
    (kernel_id_map : List (String × String)) (cm : ContainerMeasurement)
    (now : ℚ) :
    ∀ (l : List (String × Measurement))
      (km : List (String × List (String × Metric))),
      (∃ p ∈ l, List.lookup p.1 kernel_id_map = none) →
      l.foldlM (fun km p =>
        match List.lookup p.1 kernel_id_map with
        | none => none
        | some kid => some (mergeContainerSample km cm kid p.2 now)) km =
        none := by
  intro l
  induction l with
  | nil => intro km h; obtain ⟨p, hp, _⟩ := h; cases hp
  | cons q rest ih =>
    intro km h
    rw [List.foldlM_cons]
    cases hq : List.lookup q.1 kernel_id_map with
    | none => rfl
    | some kid =>
      simp only [Option.bind_eq_bind, Option.some_bind]
      obtain ⟨p, hp, hnone⟩ := h
      rcases List.mem_cons.mp hp with h1 | h1
      · subst h1
        rw [hq] at hnone
        cases hnone
      · exact ih _ ⟨p, h1, hnone⟩


theorem container_skip_points (container_id : String)
    (kernel_id_map : List (String × String)) (now : ℚ)
    (cm : ContainerMeasurement)
    (hmiss : List.lookup container_id kernel_id_map = none) :
    ∀ (l : List (String × Measurement))
      (s : List (String × List (String × Metric)) × Option String),
      (∀ p ∈ l, p.1 = container_id) →
      l.foldlM (containerStatPointStep container_id kernel_id_map now cm)
        s = some s := by
  intro l
  induction l with
  | nil => intro s _; rfl
  | cons q rest ih =>
    intro s hall
    have hq : q.1 = container_id := hall q (List.mem_cons_self _ _)
    rw [List.foldlM_cons,
      show containerStatPointStep container_id kernel_id_map now cm s q =
          some s by
        simp [containerStatPointStep, hq, hmiss]]
    simp only [Option.bind_eq_bind, Option.some_bind]
    exact ih s (fun p hp => hall p (List.mem_cons_of_mem _ hp))

theorem container_skip_measures (container_id : String)
    (kernel_id_map : List (String × String)) (now : ℚ)
    (hmiss : List.lookup container_id kernel_id_map = none) :
    ∀ (measures : List ContainerMeasurement)
      (s : List (String × List (String × Metric)) × Option String),
      (measures.all fun cm =>
        cm.per_container.all fun p => p.1 = container_id) = true →
      measures.foldlM
        (containerStatMeasureStep container_id kernel_id_map now) s =
        some s := by
  intro measures
  induction measures with
  | nil => intro s _; rfl
  | cons cm mrest ih =>
    intro s hall
    simp only [List.all_cons, Bool.and_eq_true] at hall
    rw [List.foldlM_cons,
      show containerStatMeasureStep container_id kernel_id_map now s cm =
          some s from
        container_skip_points container_id kernel_id_map now cm hmiss
          cm.per_container s
          (fun p hp => by
            have := List.all_eq_true.mp hall.1 p hp
            simpa using this)]
    simp only [Option.bind_eq_bind, Option.some_bind]
    exact ih s hall.2

theorem container_skip_batches (container_id : String)
    (kernel_id_map : List (String × String)) (now : ℚ)
    (hmiss : List.lookup container_id kernel_id_map = none) :
    ∀ (cb : List (Except Unit (List ContainerMeasurement)))
      (s : List (String × List (String × Metric)) × Option String),
      batchesFor cb container_id = true →
      cb.foldlM (containerStatBatchStep container_id kernel_id_map now) s =
        some s := by
  intro cb
  induction cb with
  | nil => intro s _; rfl
  | cons b rest ih =>
    intro s hwf
    simp only [batchesFor, List.all_cons, Bool.and_eq_true] at hwf
    have hstep : containerStatBatchStep container_id kernel_id_map now s b =
        some s := by
      cases b with
      | error e => rfl
      | ok measures =>
        exact container_skip_measures container_id kernel_id_map now hmiss
          measures s (by simpa using hwf.1)
    rw [List.foldlM_cons, hstep]
    simp only [Option.bind_eq_bind, Option.some_bind]
    exact ih s (by simpa [batchesFor] using hwf.2)

/-- **C1 (amended).** In the single-container round
(`collect_container_stat`) an unresolvable container id is a silent
skip: when every sample names the requested container id and that id is
not in the kernel-id map, the round completes without exception, leaves
the context unchanged, and returns the empty mapping.  In the full
round (`collect_node_stat`) the resolution is the unguarded subscript
`kernel_id_map[cid]`, so any sample with an unresolvable container id
makes the per-measurement merge — and hence the round — raise
`KeyError` rather than skip. -/
theorem resolution_failure_paths (ctx : StatContext)
    (registry : List (String × String)) (container_id : String)
    (cb : List (Except Unit (List ContainerMeasurement))) (now : ℚ)
    (hwf : batchesFor cb container_id = true)
    (hmiss : List.lookup container_id (buildKernelIdMap registry) = none) :
    collect_container_stat ctx registry container_id cb now =
      some (ctx, []) ∧
    (∀ (km : List (String × List (String × Metric)))
        (kernel_id_map : List (String × String))
        (cm : ContainerMeasurement) (t : ℚ),
      (∃ p ∈ cm.per_container, List.lookup p.1 kernel_id_map = none) →
      mergeContainerMeasure km kernel_id_map cm t = none) := by
  constructor
  · simp only [collect_container_stat]
    rw [container_skip_batches container_id (buildKernelIdMap registry)
      now hmiss cb (ctx.kernel_metrics, none) hwf]
  · intro km kernel_id_map cm t h
    exact mergeContainerMeasure_unresolved kernel_id_map cm t
      cm.per_container km h

/-- Witness for `resolution_failure_paths`: with registry `[(k1, c1)]`,
a single-container round for the unknown container `c-gone` with one
well-formed batch completes silently, while the full-round merge of
the same batch raises. -/
theorem resolution_failure_paths_witness :
    batchesFor [Except.ok [cmGone]] "c-gone" = true ∧
    List.lookup "c-gone" (buildKernelIdMap regW) = none ∧
    collect_container_stat StatContext.init regW "c-gone"
      [Except.ok [cmGone]] 0 = some (StatContext.init, []) ∧
    mergeContainerMeasure [] (buildKernelIdMap regW) cmGone 0 = none := by
  have h := resolution_failure_paths StatContext.init regW "c-gone"
    [Except.ok [cmGone]] 0 (by rfl) (by rfl)
  refine ⟨rfl, rfl, h.1, ?_⟩
  exact h.2 [] (buildKernelIdMap regW) cmGone 0
    ⟨("c-gone", ⟨1, none⟩), by simp [cmGone], rfl⟩

theorem mergeContainerSample_keys
    (km : List (String × List (String × Metric)))
    (cm : ContainerMeasurement) (kid : String) (meas : Measurement)
    (now : ℚ) :
    ∀ p ∈ mergeContainerSample km cm kid meas now,
      p.1 = kid ∨ p.1 ∈ km.map Prod.fst := by
  intro p hp
  cases hl : List.lookup cm.key ((List.lookup kid km).getD []) with
  | none =>
    simp only [mergeContainerSample, hl] at hp
    rcases AssocList.mem_set km kid _ p hp with h | h
    · exact Or.inl (by rw [h])
    · exact Or.inr (List.mem_map_of_mem Prod.fst h)
  | some metric =>
    simp only [mergeContainerSample, hl] at hp
    rcases AssocList.mem_set km kid _ p hp with h | h
    · exact Or.inl (by rw [h])
    · exact Or.inr (List.mem_map_of_mem Prod.fst h)

theorem lookup_foldl_set_values (reg : List (String × String)) :
    ∀ (acc : List (String × String)) (cid kid : String),
      List.lookup cid
        (reg.foldl (fun m kv => AssocList.set m kv.2 kv.1) acc) = some kid →
      kid ∈ reg.map Prod.fst ∨ List.lookup cid acc = some kid := by
  induction reg with
  | nil => intro acc cid kid h; exact Or.inr h
  | cons r rest ih =>
    intro acc cid kid h
    rw [List.foldl_cons] at h
    rcases ih _ cid kid h with h1 | h1
    · exact Or.inl (by simpa using Or.inr h1)
    · rw [AssocList.lookup_set] at h1
      by_cases hc : cid = r.2
      · rw [if_pos hc] at h1
        refine Or.inl ?_
        simp only [Option.some.injEq] at h1
        simp [← h1]
      · rw [if_neg hc] at h1
        exact Or.inr h1

theorem buildKernelIdMap_values (reg : List (String × String))
    (cid kid : String)
    (h : List.lookup cid (buildKernelIdMap reg) = some kid) :
    kid ∈ reg.map Prod.fst := by
  rcases lookup_foldl_set_values reg [] cid kid h with h1 | h1
  · exact h1
  · simp [List.lookup] at h1

theorem mergeContainerMeasure_keys (K : List String)
    (kernel_id_map : List (String × String))
    (hmap : ∀ cid kid,
      List.lookup cid kernel_id_map = some kid → kid ∈ K)
    (cm : ContainerMeasurement) (now : ℚ)
    (km km' : List (String × List (String × Metric)))
    (hkm : ∀ p ∈ km, p.1 ∈ K)
    (h : mergeContainerMeasure km kernel_id_map cm now = some km') :
    ∀ p ∈ km', p.1 ∈ K := by
  simp only [mergeContainerMeasure] at h
  refine foldlM_option_preserve (fun l => ∀ p ∈ l, p.1 ∈ K) _ ?_
    cm.per_container km km' hkm h
  intro b c b' hb hstep
  cases hl : List.lookup c.1 kernel_id_map with
  | none => simp only [hl] at hstep; cases hstep
  | some kid =>
    simp only [hl, Option.some.injEq] at hstep
    subst hstep
    intro p hp
    rcases mergeContainerSample_keys b cm kid c.2 now p hp with h1 | h1
    · rw [h1]; exact hmap c.1 kid hl
    · rcases List.mem_map.mp h1 with ⟨q, hq, hq2⟩
      rw [← hq2]
      exact hb q hq

/-- **C2.** After every completed run of `collect_node_stat`, every
kernel id keyed in `kernel_metrics` was present in the registry snapshot
read during that round: stale ids are pruned against the snapshot before
the container samples are merged, and merging only ever inserts kernel
ids resolved through the snapshot's kernel-id map. -/
theorem kernel_metrics_registry_keys (ctx ctx' : StatContext)
    (registry : List (String × String))
    (node_batches : List (Except Unit (List NodeMeasurement)))
    (ctnr_batches : List (Except Unit (List ContainerMeasurement)))
    (now : ℚ)
    (h : collect_node_stat ctx registry node_batches ctnr_batches now =
      some ctx') :
    ∀ p ∈ ctx'.kernel_metrics, p.1 ∈ registry.map Prod.fst := by
  simp only [collect_node_stat] at h
  cases hfold : (ctnr_batches.foldlM
      (nodeStatCtnrBatchStep (buildKernelIdMap registry) now)
      ((node_batches.foldl (nodeStatBatchStep now) ctx).kernel_metrics.filter
        (fun kv => (registry.map Prod.fst).contains kv.1))) with
  | none => rw [hfold] at h; cases h
  | some km =>
    rw [hfold] at h
    simp only [Option.some.injEq] at h
    subst h
    show ∀ p ∈ km, p.1 ∈ registry.map Prod.fst
    refine foldlM_option_preserve
      (fun l => ∀ p ∈ l, p.1 ∈ registry.map Prod.fst)
      (nodeStatCtnrBatchStep (buildKernelIdMap registry) now) ?_
      ctnr_batches _ km ?_ hfold
    · intro b c b' hb hstep
      cases c with
      | error e =>
        simp only [nodeStatCtnrBatchStep, Option.some.injEq] at hstep
        subst hstep
        exact hb
      | ok measures =>
        simp only [nodeStatCtnrBatchStep] at hstep
        refine foldlM_option_preserve
          (fun l => ∀ p ∈ l, p.1 ∈ registry.map Prod.fst) _ ?_
          measures b b' hb hstep
        intro d cm d' hd hmerge
        exact mergeContainerMeasure_keys (registry.map Prod.fst)
          (buildKernelIdMap registry)
          (fun cid kid hl => buildKernelIdMap_values registry cid kid hl)
          cm now d d' hd hmerge
    · intro p hp
      have := List.mem_filter.mp hp
      simpa using this.2

/-- Witness for `kernel_metrics_registry_keys`: a full round over
registry `[(k1, c1)]` merging one sample for `c1` yields a
`kernel_metrics` table whose (only) key `k1` is a registry kernel id. -/
theorem kernel_metrics_registry_keys_witness :
    ("k1" : String) ∈ regW.map Prod.fst :=
  kernel_metrics_registry_keys StatContext.init
    ⟨[], [], [("k1", [("cpu_used", mW)])]⟩ regW [] [Except.ok [cmW]] 0 rfl
    ("k1", [("cpu_used", mW)]) (List.mem_singleton.mpr rfl)

theorem Metric.update_count (m : Metric) (meas : Measurement) (now : ℚ) :
    (m.update meas now).data.stats.count = m.data.stats.count + 1 := by
  cases hk : m.current_hook <;>
    simp [Metric.update, hk, MovingStatistics.update]

theorem mergeNodeMetric_countPos (nm : List (String × Metric))
    (m : NodeMeasurement) (now : ℚ) (h : TableCountPos nm) :
    TableCountPos (mergeNodeMetric nm m now) := by
  intro p hp
  cases hl : List.lookup m.key nm with
  | none =>
    simp only [mergeNodeMetric, hl] at hp
    rcases AssocList.mem_set _ _ _ p hp with h1 | h1
    · rw [h1]
      exact Nat.le_refl 1
    · exact h p h1
  | some metric =>
    simp only [mergeNodeMetric, hl] at hp
    rcases AssocList.mem_set _ _ _ p hp with h1 | h1
    · rw [h1]
      show 1 ≤ (metric.update m.per_node now).data.stats.count
      rw [Metric.update_count]
      omega
    · exact h p h1

theorem tableCountPos_set_table
    (d : List (String × List (String × Metric))) (key dev : String)
    (X : Metric) (hX : 1 ≤ X.data.stats.count)
    (hd : ∀ p ∈ d, TableCountPos p.2) :
    ∀ p ∈ AssocList.set d key
      (AssocList.set ((List.lookup key d).getD []) dev X),
      TableCountPos p.2 := by
  intro p hp
  rcases AssocList.mem_set _ _ _ p hp with h1 | h1
  · subst h1
    intro r hr
    rcases AssocList.mem_set _ _ _ r hr with h2 | h2
    · rw [h2]; exact hX
    · cases hlt : List.lookup key d with
      | none =>
        rw [hlt] at h2
        simp only [Option.getD_none] at h2
        cases h2
      | some t =>
        rw [hlt] at h2
        simp only [Option.getD_some] at h2
        exact hd (key, t) (lookup_pair_mem d key t hlt) r h2
  · exact hd p h1

theorem mergeDeviceMetrics_countPos
    (dm : List (String × List (String × Metric))) (m : NodeMeasurement)
    (now : ℚ) (h : ∀ p ∈ dm, TableCountPos p.2) :
    ∀ p ∈ mergeDeviceMetrics dm m now, TableCountPos p.2 := by
  simp only [mergeDeviceMetrics]
  refine foldl_preserve (fun d => ∀ p ∈ d, TableCountPos p.2) _ ?_
    m.per_device dm h
  intro d q hd
  cases hl : List.lookup q.1 ((List.lookup m.key d).getD []) with
  | none =>
    simp only [hl]
    exact tableCountPos_set_table d m.key q.1 _ (le_refl 1) hd
  | some metric =>
    simp only [hl]
    refine tableCountPos_set_table d m.key q.1 _ ?_ hd
    rw [Metric.update_count]
    omega

theorem mergeContainerSample_countPos
    (km : List (String × List (String × Metric)))
    (cm : ContainerMeasurement) (kid : String) (meas : Measurement)
    (now : ℚ) (h : ∀ p ∈ km, TableCountPos p.2) :
    ∀ p ∈ mergeContainerSample km cm kid meas now, TableCountPos p.2 := by
  cases hl : List.lookup cm.key ((List.lookup kid km).getD []) with
  | none =>
    simp only [mergeContainerSample, hl]
    exact tableCountPos_set_table km kid cm.key _ (le_refl 1) h
  | some metric =>
    simp only [mergeContainerSample, hl]
    refine tableCountPos_set_table km kid cm.key _ ?_ h
    rw [Metric.update_count]
    omega

theorem mergeContainerMeasure_countPos
    (kernel_id_map : List (String × String)) (cm : ContainerMeasurement)
    (now : ℚ) (km km' : List (String × List (String × Metric)))
    (hkm : ∀ p ∈ km, TableCountPos p.2)
    (h : mergeContainerMeasure km kernel_id_map cm now = some km') :
    ∀ p ∈ km', TableCountPos p.2 := by
  simp only [mergeContainerMeasure] at h
  refine foldlM_option_preserve (fun l => ∀ p ∈ l, TableCountPos p.2) _ ?_
    cm.per_container km km' hkm h
  intro b c b' hb hstep
  cases hl : List.lookup c.1 kernel_id_map with
  | none => simp only [hl] at hstep; cases hstep
  | some kid =>
    simp only [hl, Option.some.injEq] at hstep
    subst hstep
    exact mergeContainerSample_countPos b cm kid c.2 now hb

theorem nodeStatBatchStep_countPos (now : ℚ) (c : StatContext)
    (b : Except Unit (List NodeMeasurement)) (h : CtxCountPos c) :
    CtxCountPos (nodeStatBatchStep now c b) := by
  cases b with
  | error e => exact h
  | ok measures =>
    show CtxCountPos (measures.foldl (nodeStatMeasureStep now) c)
    refine foldl_preserve CtxCountPos _ ?_ measures c h
    intro c' m hc'
    exact ⟨mergeNodeMetric_countPos c'.node_metrics m now hc'.1,
      mergeDeviceMetrics_countPos c'.device_metrics m now hc'.2.1,
      hc'.2.2⟩

/-- **C10.** Every metric resident in any of the three tables wraps a
`MovingStatistics` seeded with an initial value, so its count is at
least one at all times: the empty context satisfies the invariant and
both collection rounds preserve it (also for the mapping a
single-container round returns), hence `avg` never divides by zero for
table-resident metrics. -/
theorem tables_count_positive :
    CtxCountPos StatContext.init ∧
    (∀ (ctx : StatContext) (registry : List (String × String))
        (nb : List (Except Unit (List NodeMeasurement)))
        (cb : List (Except Unit (List ContainerMeasurement))) (now : ℚ)
        (ctx' : StatContext),
      CtxCountPos ctx →
      collect_node_stat ctx registry nb cb now = some ctx' →
      CtxCountPos ctx') ∧
    (∀ (ctx : StatContext) (registry : List (String × String))
        (cid : String)
        (cb : List (Except Unit (List ContainerMeasurement))) (now : ℚ)
        (ctx' : StatContext) (ret : List (String × Metric)),
      CtxCountPos ctx →
      collect_container_stat ctx registry cid cb now = some (ctx', ret) →
      CtxCountPos ctx' ∧ TableCountPos ret) ∧
    (∀ m : Metric, 1 ≤ m.data.stats.count →
      ∃ a, m.data.stats.avg = some a) := by
  refine ⟨?_, ?_, ?_, ?_⟩
  · exact ⟨fun p hp => absurd hp (List.not_mem_nil p),
      fun p hp => absurd hp (List.not_mem_nil p),
      fun p hp => absurd hp (List.not_mem_nil p)⟩
  · intro ctx registry nb cb now ctx' hctx h
    simp only [collect_node_stat] at h
    have hctx1 : CtxCountPos (nb.foldl (nodeStatBatchStep now) ctx) :=
      foldl_preserve CtxCountPos _
        (fun c b hc => nodeStatBatchStep_countPos now c b hc) nb ctx hctx
    cases hfold : (cb.foldlM
        (nodeStatCtnrBatchStep (buildKernelIdMap registry) now)
        ((nb.foldl (nodeStatBatchStep now) ctx).kernel_metrics.filter
          (fun kv => (registry.map Prod.fst).contains kv.1))) with
    | none => rw [hfold] at h; cases h
    | some km =>
      rw [hfold] at h
      simp only [Option.some.injEq] at h
      subst h
      refine ⟨hctx1.1, hctx1.2.1, ?_⟩
      show ∀ p ∈ km, TableCountPos p.2
      refine foldlM_option_preserve (fun l => ∀ p ∈ l, TableCountPos p.2)
        (nodeStatCtnrBatchStep (buildKernelIdMap registry) now) ?_
        cb _ km ?_ hfold
      · intro b c b' hb hstep
        cases c with
        | error e =>
          simp only [nodeStatCtnrBatchStep, Option.some.injEq] at hstep
          subst hstep
          exact hb
        | ok measures =>
          simp only [nodeStatCtnrBatchStep] at hstep
          refine foldlM_option_preserve
            (fun l => ∀ p ∈ l, TableCountPos p.2) _ ?_
            measures b b' hb hstep
          intro d cm d' hd hmerge
          exact mergeContainerMeasure_countPos (buildKernelIdMap registry)
            cm now d d' hd hmerge
      · intro p hp
        exact hctx1.2.2 p (List.mem_filter.mp hp).1
  · intro ctx registry cid cb now ctx' ret hctx h
    simp only [collect_container_stat] at h
    cases hfold : (cb.foldlM
        (containerStatBatchStep cid (buildKernelIdMap registry) now)
        (ctx.kernel_metrics, none)) with
    | none => rw [hfold] at h; cases h
    | some s =>
      have hs : ∀ p ∈ s.1, TableCountPos p.2 := by
        refine foldlM_option_preserve
          (fun t : List (String × List (String × Metric)) × Option String =>
            ∀ p ∈ t.1, TableCountPos p.2)
          (containerStatBatchStep cid (buildKernelIdMap registry) now) ?_
          cb _ s hctx.2.2 hfold
        intro b c b' hb hstep
        cases c with
        | error e =>
          simp only [containerStatBatchStep, Option.some.injEq] at hstep
          subst hstep
          exact hb
        | ok measures =>
          simp only [containerStatBatchStep] at hstep
          refine foldlM_option_preserve
            (fun t : List (String × List (String × Metric)) × Option String
              => ∀ p ∈ t.1, TableCountPos p.2) _ ?_ measures b b' hb hstep
          intro d cm d' hd hms
          simp only [containerStatMeasureStep] at hms
          refine foldlM_option_preserve
            (fun t : List (String × List (String × Metric)) × Option String
              => ∀ p ∈ t.1, TableCountPos p.2) _ ?_ cm.per_container
            d d' hd hms
          intro e q e' he hpt
          simp only [containerStatPointStep] at hpt
          by_cases hq : q.1 ≠ cid
          · rw [if_pos hq] at hpt; cases hpt
          · rw [if_neg hq] at hpt
            cases hlq : List.lookup q.1 (buildKernelIdMap registry) with
            | none =>
              simp only [hlq, Option.some.injEq] at hpt
              subst hpt
              exact he
            | some kid =>
              simp only [hlq, Option.some.injEq] at hpt
              subst hpt
              exact mergeContainerSample_countPos e.1 cm kid q.2 now he
      obtain ⟨km, kid?⟩ := s
      cases kid? with
      | none =>
        rw [hfold] at h
        simp only [Option.some.injEq, Prod.mk.injEq] at h
        obtain ⟨h1, h2⟩ := h
        subst h1
        subst h2
        exact ⟨⟨hctx.1, hctx.2.1, hs⟩,
          fun p hp => absurd hp (List.not_mem_nil p)⟩
      | some kid =>
        rw [hfold] at h
        simp only [Option.some.injEq, Prod.mk.injEq] at h
        obtain ⟨h1, h2⟩ := h
        subst h1
        subst h2
        refine ⟨⟨hctx.1, hctx.2.1, hs⟩, ?_⟩
        cases hlk : List.lookup kid km with
        | none =>
          simp only [hlk, Option.getD_none]
          intro p hp
          exact absurd hp (List.not_mem_nil p)
        | some tbl =>
          simp only [hlk, Option.getD_some]
          exact hs (kid, tbl) (lookup_pair_mem km kid tbl hlk)
  · intro m hm
    exact ⟨m.data.stats.sum / (m.data.stats.count : ℚ), by
      simp only [MovingStatistics.avg]
      rw [if_neg (by omega : ¬ m.data.stats.count = 0)]⟩

/-- Witness for `tables_count_positive`: a full round and a
single-container round over registry `[(k1, c1)]` with one sample each
yield tables satisfying the invariant, and the stored metric's average
is defined. -/
theorem tables_count_positive_witness :
    CtxCountPos ⟨[], [], [("k1", [("cpu_used", mW)])]⟩ ∧
    TableCountPos [("cpu_used", mW)] ∧
    (∃ a, mW.data.stats.avg = some a) := by
  have h := tables_count_positive
  have hnode := h.2.1 StatContext.init regW [] [Except.ok [cmW]] 0
    ⟨[], [], [("k1", [("cpu_used", mW)])]⟩ h.1 rfl
  have hctnr := h.2.2.1 StatContext.init regW "c1" [Except.ok [cmW]] 0
    ⟨[], [], [("k1", [("cpu_used", mW)])]⟩ [("cpu_used", mW)] h.1 rfl
  exact ⟨hnode, hctnr.2, h.2.2.2 mW (Nat.le_refl 1)⟩
